import Mathlib

namespace Make

/-!
Verification of the regression-test execution engine in `make.py`.

The embedding models the filesystem state the script observes as explicit
data (`WalkFile`, `FileSys`), the two corpus-preparation functions, the
manifest writer, the command construction, the worker pool (as a small-step
relation driven by an explicit interleaving schedule), and the per-main
control flow.  Python's stable `list.sort(key=..., reverse=...)` is modelled
by a stable insertion sort.
-/
/-- One file discovered by `os.walk`: its joined path, its base filename,
its path relative to the walk root (as computed by `os.path.relpath`), and
its byte size (as returned by `os.path.getsize`). -/
structure WalkFile where
  path : String
  name : String
  rel : String
  size : Nat
deriving DecidableEq

/-- Snapshot of the filesystem facts `make.py` consults.  The `*_walk`
fields hold the files `os.walk` would enumerate under the corresponding
directory once it exists (for a corpus directory: after extraction, when
extraction occurs).  Walking a directory that does not exist and is never
created yields nothing; callers therefore pass `[]` in that situation. -/
structure FileSys where
  test_zip : Bool
  test_dir : Bool
  test_walk : List WalkFile
  decomp_zip : Bool
  decomp_dir : Bool
  decomp_walk : List WalkFile
  configs_dir : Bool
  configs_walk : List WalkFile
deriving DecidableEq

/-- How the process can stop: `sys.exit(code)` or an uncaught
`ZeroDivisionError`. -/
inductive Halt where
  | exit (code : Nat)
  | zeroDivisionError
deriving DecidableEq

/-- `os.path.join` (POSIX separator). -/
def pathJoin (a b : String) : String := a ++ "/" ++ b

/-- Module constant `current_test_data`. -/
def current_test_data : String := "test_data_v1"

/-- Module constant `current_decomp_data`. -/
def current_decomp_data : String := "decomp_data_v2"

/-- Python's `str.endswith`, computed on the character data. -/
def strEndsWith (s suffix : String) : Bool := suffix.data.isSuffixOf s.data

/-- The code-point sequence of a string.  Python compares strings
lexicographically by code point; that order is exactly the lexicographic
`List Nat` order on this key. -/
def codePoints (s : String) : List Nat := s.data.map Char.toNat

/-! ### Stable sorting, modelling Python's `list.sort`

`keep y x = true` means an already-placed element `y` stays in front of the
element `x` being inserted; on `keep y x = false` the inserted element is
placed before `y`.  Since `keep` is irreflexive for the instantiations
below, equal-key elements keep their relative discovery order, exactly as
Python's stable sort does. -/
def stableInsertBy {α : Type} (keep : α → α → Bool) (x : α) : List α → List α
  | [] => [x]
  | y :: ys => if keep y x then y :: stableInsertBy keep x ys else x :: y :: ys

def stableSortBy {α : Type} (keep : α → α → Bool) : List α → List α
  | [] => []
  | x :: xs => stableInsertBy keep x (stableSortBy keep xs)

/-- `list.sort(key=key)`: stable ascending sort by `key`. -/
def sortOnAsc {α β : Type} [LinearOrder β] (key : α → β) : List α → List α :=
  stableSortBy (fun y x => decide (key y < key x))

/-- `list.sort(key=key, reverse=True)`: stable descending sort by `key`. -/
def sortOnDesc {α β : Type} [LinearOrder β] (key : α → β) : List α → List α :=
  stableSortBy (fun y x => decide (key x < key y))

/-! ### Corpus preparation (`do_prepare_regression_test_data`,
`do_prepare_decompression_test_data`) -/
/-- The clip enumeration of `do_prepare_regression_test_data` (make.py lines
288-295): every walked file whose name ends in `.acl.sjson`. -/
def regression_clips_of (fs : FileSys) : List WalkFile :=
  fs.test_walk.filter (fun f => strEndsWith f.name ".acl.sjson")

/-- The configuration enumeration of `do_prepare_regression_test_data`
(make.py lines 304-313): every file under the `configs` subdirectory (when
it exists) whose name ends in `.config.sjson`. -/
def test_configs_of (fs : FileSys) : List WalkFile :=
  if fs.configs_dir then fs.configs_walk.filter (fun f => strEndsWith f.name ".config.sjson")
  else []

/-- The clip enumeration of `do_prepare_decompression_test_data` (make.py
lines 361-368): files ending in `.acl.bin`, in discovery order. -/
def decomp_clips_of (fs : FileSys) : List WalkFile :=
  fs.decomp_walk.filter (fun f => strEndsWith f.name ".acl.bin")

/-- The configuration enumeration of `do_prepare_decompression_test_data`
(make.py lines 377-389): restricted to the single fixed configuration
name. -/
def decomp_configs_of (fs : FileSys) : List WalkFile :=
  if fs.configs_dir then
    fs.configs_walk.filter (fun f =>
      strEndsWith f.name ".config.sjson"
        && decide (f.name = "uniformly_sampled_quant_var_2.config.sjson"))
  else []

/-- The lines printed into `metadata.sjson` (make.py lines 328-338 and
397-408): a `configs = [...]` block of relative config paths followed by a
`clips = [...]` block of relative clip paths. -/
def manifestLines (configs clips : List WalkFile) : List String :=
  ["configs = ["]
    ++ configs.map (fun f => "\t\"" ++ f.rel ++ "\"")
    ++ ["]", "", "clips = ["]
    ++ clips.map (fun f => "\t\"" ++ f.rel ++ "\"")
    ++ ["]", ""]

deriving instance DecidableEq for Except

/-- The observable result of one corpus-preparation call: whether the
archive was extracted during this call, the manifest lines written (if
any), and either the returned directory (`some dir`), the absent indicator
`none` (Python's bare `return`), or a `sys.exit`. -/
structure PrepareResult where
  extracted : Bool
  manifest : Option (List String)
  value : Except Halt (Option String)
deriving DecidableEq

/-- `do_prepare_regression_test_data` (make.py lines 269-340).  The archive
check, the cold-cache extraction, the two fatal-empty checks, and the
cold-cache-only sorted manifest write. -/
def do_prepare_regression_test_data (fs : FileSys) (test_data_dir : String) : PrepareResult :=
  if !fs.test_zip then ⟨false, none, Except.ok none⟩
  else
    let current_test_data_dir := pathJoin test_data_dir current_test_data
    let needs_decompression := !fs.test_dir
    let regression_clips := regression_clips_of fs
    if regression_clips.length = 0 then ⟨needs_decompression, none, Except.error (Halt.exit 1)⟩
    else
      let test_configs := test_configs_of fs
      if test_configs.length = 0 then ⟨needs_decompression, none, Except.error (Halt.exit 1)⟩
      else if needs_decompression then
        ⟨true,
         some (manifestLines (sortOnAsc (fun f => codePoints f.name) test_configs)
                             (sortOnDesc (fun f => f.size) regression_clips)),
         Except.ok (some current_test_data_dir)⟩
      else ⟨false, none, Except.ok (some current_test_data_dir)⟩

/-- `do_prepare_decompression_test_data` (make.py lines 342-410).  Same
shape as the regression variant, but the enumerated lists are written to
the manifest unsorted, in discovery order. -/
def do_prepare_decompression_test_data (fs : FileSys) (test_data_dir : String) : PrepareResult :=
  if !fs.decomp_zip then ⟨false, none, Except.ok none⟩
  else
    let current_data_dir := pathJoin test_data_dir current_decomp_data
    let needs_decompression := !fs.decomp_dir
    let clips := decomp_clips_of fs
    if clips.length = 0 then ⟨needs_decompression, none, Except.error (Halt.exit 1)⟩
    else
      let configs := decomp_configs_of fs
      if configs.length = 0 then ⟨needs_decompression, none, Except.error (Halt.exit 1)⟩
      else if needs_decompression then
        ⟨true, some (manifestLines configs clips), Except.ok (some current_data_dir)⟩
      else ⟨false, none, Except.ok (some current_data_dir)⟩

/-! ### Progress rendering and command construction -/
/-- `print_progress` (make.py lines 241-267): the percent computation
`100 * (iteration / float(total))`.  Float division by zero raises an
uncaught `ZeroDivisionError` in Python, so `total = 0` halts; otherwise the
rendered percentage is produced. -/
def print_progress (iteration total : Nat) : Except Halt ℚ :=
  if total = 0 then Except.error Halt.zeroDivisionError
  else Except.ok (100 * ((iteration : ℚ) / (total : ℚ)))

/-- Path-separator normalization applied on Windows:
`cmd.replace('/', '\\')` (make.py line 467). -/
def winSep (c : Char) : Char := if c = '/' then '\\' else c

/-- `cmd.replace('/', '\\')` (make.py line 467), on the character data. -/
def replaceSlashes (s : String) : String := String.mk (s.data.map winSep)

/-- The command string built for one work item (make.py lines 465-467):
`'{} -acl="{}" -test -config="{}"'.format(...)`, with every `/` replaced by
`\` on Windows. -/
def makeCmd (isWin : Bool) (exe clip config : String) : String :=
  let cmd := exe ++ " -acl=\"" ++ clip ++ "\" -test -config=\"" ++ config ++ "\""
  if isWin then replaceSlashes cmd else cmd

/-! ### The worker pool

One work item is a `(clip_filename, cmd)` pair; the `cmd_queue` is seeded
with all items followed by one `None` termination marker per worker thread
(make.py lines 460-473).  Each worker (`run_clip_regression_test`, lines
475-492) repeatedly pops one entry; a marker ends its loop, otherwise it
runs the command, pushes a failure record when the exit status is non-zero,
and always pushes the clip name to the completed queue.

The pool is modelled as a small-step system driven by a schedule: a list of
worker indices, each entry performing one full loop iteration of that
worker.  The queue pop is atomic in the source (`queue.Queue` is
thread-safe); the subsequent channel pushes of the same iteration are
folded into the same step, which changes only the relative order of pushes
originating from different workers — the properties verified here (counts,
membership, emptiness of the channels) are invariant under that order. -/
/-- A queued work item: `(clip_filename, cmd)`. -/
abbrev WorkItem := String × String

/-- Per-pool shared state: the three concurrent containers plus each
worker's liveness (`true` = the thread is still running its loop). -/
structure PoolState where
  cmd_queue : List (Option WorkItem)
  completed_queue : List String
  failed_queue : List WorkItem
  workers : List Bool
deriving DecidableEq

/-- The seeded work queue: one entry per clip, in enumerated order,
followed by one `None` marker per worker (make.py lines 464-473). -/
def seedQueue (items : List WorkItem) (num_threads : Nat) : List (Option WorkItem) :=
  items.map some ++ List.replicate num_threads none

/-- The pool state right after the queue is seeded and the `num_threads`
workers are started. -/
def initPool (items : List WorkItem) (num_threads : Nat) : PoolState :=
  ⟨seedQueue items num_threads, [], [], List.replicate num_threads true⟩

/-- One loop iteration of worker `i` (`run_clip_regression_test`, make.py
lines 475-492): pop the queue head; a marker ends the worker; otherwise run
`os.system cmd`, record a failure iff the exit status is non-zero, and push
the clip to the completed queue regardless of the outcome.  A finished (or
non-existent) worker, or an empty queue (a pop that would block), leaves
the state unchanged. -/
def poolStep (system : String → Int) (st : PoolState) (i : Nat) : PoolState :=
  if st.workers.getD i false then
    match st.cmd_queue with
    | [] => st
    | none :: rest => { st with cmd_queue := rest, workers := st.workers.set i false }
    | some item :: rest =>
        { st with
          cmd_queue := rest,
          failed_queue :=
            if system item.2 ≠ 0 then st.failed_queue ++ [item] else st.failed_queue,
          completed_queue := st.completed_queue ++ [item.1] }
  else st

/-- Run the pool under an explicit interleaving schedule. -/
def runPool (system : String → Int) (st : PoolState) (sched : List Nat) : PoolState :=
  sched.foldl (poolStep system) st

/-- Every worker thread has ended its loop (what the join/`isAlive` polling
loop of make.py lines 500-514 waits for). -/
def allDone (st : PoolState) : Prop := ∀ w ∈ st.workers, w = false

instance (st : PoolState) : Decidable (allDone st) := by
  unfold allDone
  infer_instance

/-! ### The per-configuration regression loop (`do_regression_tests`) -/
/-- Externally visible events of the regression run, in program order. -/
inductive Ev where
  | prepReg
  | prepDecomp
  | generate
  | spawned (num_threads : Nat)
  | elapsed (config_filename : String)
deriving DecidableEq

/-- Result of `do_regression_tests`: the events it printed/performed and
`none` when it returned normally, `some h` when the process halted. -/
structure RegRun where
  events : List Ev
  halt : Option Halt
deriving DecidableEq

/-- The work items built for one configuration (make.py lines 464-469). -/
def mkWorkItems (isWin : Bool) (exe config_filename : String)
    (clips : List (String × Nat)) : List WorkItem :=
  clips.map (fun c => (c.1, makeCmd isWin exe c.1 config_filename))

/-- The loop over configurations (make.py lines 456-524).  Per
configuration: seed the queue, spawn the workers, render the initial
progress line (which divides by the clip count), wait for the pool to
drain under this configuration's schedule, print the elapsed-time line,
and `sys.exit(1)` iff the failure queue is non-empty; otherwise continue
with the next configuration. -/
def configsLoop (system : String → Int) (isWin : Bool) (exe : String)
    (clips : List (String × Nat)) (num_threads : Nat) :
    List (String × String) → List (List Nat) → RegRun
  | [], _ => ⟨[], none⟩
  | config :: rest, scheds =>
    let items := mkWorkItems isWin exe config.1 clips
    match print_progress 0 clips.length with
    | Except.error h => ⟨[Ev.spawned num_threads], some h⟩
    | Except.ok _ =>
      let final := runPool system (initPool items num_threads) (scheds.headD [])
      let regression_testing_failed := !final.failed_queue.isEmpty
      if regression_testing_failed then
        ⟨[Ev.spawned num_threads, Ev.elapsed config.1], some (Halt.exit 1)⟩
      else
        let r := configsLoop system isWin exe clips num_threads rest scheds.tail
        ⟨[Ev.spawned num_threads, Ev.elapsed config.1] ++ r.events, r.halt⟩

/-- `do_regression_tests` (make.py lines 412-524): compressor-executable
check, fresh clip/config enumeration, the two sorts, then the
per-configuration loop.  `test_walk_now` is what `os.walk` finds under the
corpus directory at this point of the run. -/
def do_regression_tests (system : String → Int) (isWin : Bool)
    (compressor_exists : Bool) (compressor_exe_path : String)
    (test_walk_now : List WalkFile) (configs_dir : Bool) (configs_walk : List WalkFile)
    (num_threads : Nat) (scheds : List (List Nat)) : RegRun :=
  if !compressor_exists then ⟨[], some (Halt.exit 1)⟩
  else
    let regression_clips :=
      (test_walk_now.filter (fun f => strEndsWith f.name ".acl.sjson")).map (fun f => (f.path, f.size))
    let test_configs :=
      (if configs_dir then configs_walk.filter (fun f => strEndsWith f.name ".config.sjson") else []).map
        (fun f => (f.path, f.name))
    configsLoop system isWin compressor_exe_path
      (sortOnDesc Prod.snd regression_clips) num_threads
      (sortOnAsc (fun c => codePoints c.2) test_configs) scheds

/-! ### The main flow (`__main__`, make.py lines 526-570)

Project-file generation, the build and the unit tests are external
collaborators (excluded by the spec); only the control flow relevant to
corpus preparation and regression testing is modelled. -/
/-- The already-parsed invocation parameters consumed here. -/
structure Args where
  num_threads : Nat
  regression_test : Bool
  compiler : Option String
deriving DecidableEq

/-- What `os.walk` finds under the regression corpus directory after the
preparation stage: its contents if the directory pre-existed or the archive
was available for extraction, nothing otherwise. -/
def test_walk_after_prepare (fs : FileSys) : List WalkFile :=
  if fs.test_dir || fs.test_zip then fs.test_walk else []

/-- `__main__`: prepare both corpora (each may `sys.exit`), generate the
build files, then (when requested and not targeting android/ios) run the
regression tests; ends with `sys.exit(0)`. -/
def mainRun (fs : FileSys) (test_data_dir : String) (isWin : Bool)
    (compressor_exists : Bool) (compressor_exe_path : String)
    (system : String → Int) (args : Args) (scheds : List (List Nat)) :
    List Ev × Halt :=
  match (do_prepare_regression_test_data fs test_data_dir).value with
  | Except.error h => ([Ev.prepReg], h)
  | Except.ok _regression_data_dir =>
    match (do_prepare_decompression_test_data fs test_data_dir).value with
    | Except.error h => ([Ev.prepReg, Ev.prepDecomp], h)
    | Except.ok _decomp_data_dir =>
      let evs := [Ev.prepReg, Ev.prepDecomp, Ev.generate]
      if args.regression_test && !(args.compiler == some "android")
          && !(args.compiler == some "ios") then
        let rr := do_regression_tests system isWin compressor_exists compressor_exe_path
          (test_walk_after_prepare fs) fs.configs_dir fs.configs_walk args.num_threads scheds
        (evs ++ rr.events, rr.halt.getD (Halt.exit 0))
      else (evs, Halt.exit 0)

/-- The pop-count invariant of a pool state. -/
def PoolInv (system : String → Int) (items : List WorkItem) (n : Nat) (st : PoolState) : Prop :=
  ∃ k, k ≤ items.length + n ∧
    st.cmd_queue = (seedQueue items n).drop k ∧
    st.completed_queue = (items.take k).map Prod.fst ∧
    st.failed_queue = (items.take k).filter (fun it => decide (system it.2 ≠ 0)) ∧
    st.workers.length = n ∧
    min k items.length + st.workers.count false = k

/-- Whether the drained pool of one configuration holds at least one
failure record: some enumerated work item's command exits non-zero. -/
def configFails (system : String → Int) (isWin : Bool) (exe : String)
    (clips : List (String × Nat)) (config_filename : String) : Bool :=
  !((mkWorkItems isWin exe config_filename clips).filter
      (fun it => decide (system it.2 ≠ 0))).isEmpty

/-- The events emitted for a list of attempted configurations: per
configuration, workers are spawned and its elapsed-time line prints. -/
def configEvents (num_threads : Nat) (attempted : List (String × String)) : List Ev :=
  (attempted.map (fun c => [Ev.spawned num_threads, Ev.elapsed c.1])).flatten

/-! ### Demonstration filesystem snapshots used by concrete witnesses -/
/-- A warm cache: archive and corpus directory both present. -/
def fsWarmDemo : FileSys := ⟨true, true, [], false, false, [], false, []⟩

/-- Archive present but the extracted corpus contains no clip files. -/
def fsEmptyCorpus : FileSys := ⟨true, false, [], false, false, [], false, []⟩

/-- The regression archive is absent on disk. -/
def fsAbsentArchive : FileSys := ⟨false, false, [], false, false, [], false, []⟩

/-- Cold caches for both corpora, with two clips each (discovered
smaller-first) and configurations discovered out of name order. -/
def fsRegDemo : FileSys :=
  ⟨true, false,
   [⟨"td/test_data_v1/a.acl.sjson", "a.acl.sjson", "a.acl.sjson", 10⟩,
    ⟨"td/test_data_v1/b.acl.sjson", "b.acl.sjson", "b.acl.sjson", 50⟩],
   true, false,
   [⟨"td/decomp_data_v2/a.acl.bin", "a.acl.bin", "a.acl.bin", 10⟩,
    ⟨"td/decomp_data_v2/b.acl.bin", "b.acl.bin", "b.acl.bin", 50⟩],
   true,
   [⟨"td/configs/b.config.sjson", "b.config.sjson", "b.config.sjson", 4⟩,
    ⟨"td/configs/a.config.sjson", "a.config.sjson", "a.config.sjson", 4⟩,
    ⟨"td/configs/uniformly_sampled_quant_var_2.config.sjson",
     "uniformly_sampled_quant_var_2.config.sjson",
     "uniformly_sampled_quant_var_2.config.sjson", 7⟩]⟩

/-- Cold decompression corpus whose clips are discovered in ascending size
order. -/
def fsDecompDemo : FileSys :=
  ⟨false, false, [], true, false,
   [⟨"td/decomp_data_v2/a.acl.bin", "a.acl.bin", "a.acl.bin", 10⟩,
    ⟨"td/decomp_data_v2/b.acl.bin", "b.acl.bin", "b.acl.bin", 50⟩],
   true,
   [⟨"td/configs/uniformly_sampled_quant_var_2.config.sjson",
     "uniformly_sampled_quant_var_2.config.sjson",
     "uniformly_sampled_quant_var_2.config.sjson", 7⟩]⟩

/-- Regression archive absent, but a configuration file is present: the
regression runner then enumerates zero clips with one configuration. -/
def fsZeroDivDemo : FileSys :=
  ⟨false, false, [], false, false, [], true,
   [⟨"td/configs/x.config.sjson", "x.config.sjson", "x.config.sjson", 3⟩]⟩

/-- The oracle for the C2 witness: only the first configuration's command
fails. -/
def sysDemo : String → Int :=
  fun cmd => if cmd = makeCmd false "v" "cl" "cfg1" then 1 else 0

/-- The three configurations of the C2 witness. -/
def configsDemo : List (String × String) :=
  [("cfg1", "a.config.sjson"), ("cfg2", "b.config.sjson"), ("cfg3", "c.config.sjson")]

theorem perm_stableInsertBy {α : Type} (keep : α → α → Bool) (x : α) (l : List α) :
    List.Perm (stableInsertBy keep x l) (x :: l) := by
  induction l with
  | nil => exact List.Perm.refl _
  | cons y ys ih =>
    by_cases h : keep y x
    · simp only [stableInsertBy, if_pos h]
      exact (ih.cons y).trans (List.Perm.swap x y ys)
    · simp only [stableInsertBy, if_neg h]
      exact List.Perm.refl _

theorem perm_stableSortBy {α : Type} (keep : α → α → Bool) (l : List α) :
    List.Perm (stableSortBy keep l) l := by
  induction l with
  | nil => exact List.Perm.refl _
  | cons x xs ih =>
    exact (perm_stableInsertBy keep x (stableSortBy keep xs)).trans (ih.cons x)

theorem mem_stableInsertBy {α : Type} {keep : α → α → Bool} {x z : α} {l : List α} :
    z ∈ stableInsertBy keep x l ↔ z = x ∨ z ∈ l := by
  rw [(perm_stableInsertBy keep x l).mem_iff, List.mem_cons]

theorem pairwise_stableInsertBy {α : Type} (R : α → α → Prop) (keep : α → α → Bool)
    (hkeep : ∀ a b, keep a b = true → R a b)
    (hstop : ∀ a b, keep a b = false → R b a)
    (htrans : ∀ a b c, R a b → R b c → R a c)
    (x : α) (l : List α) (hl : List.Pairwise R l) :
    List.Pairwise R (stableInsertBy keep x l) := by
  induction l with
  | nil => simp [stableInsertBy]
  | cons y ys ih =>
    rw [List.pairwise_cons] at hl
    obtain ⟨h1, h2⟩ := hl
    by_cases hk : keep y x
    · simp only [stableInsertBy, if_pos hk]
      rw [List.pairwise_cons]
      constructor
      · intro z hz
        rcases mem_stableInsertBy.mp hz with hz1 | hz2
        · rw [hz1]
          exact hkeep _ _ hk
        · exact h1 z hz2
      · exact ih h2
    · simp only [stableInsertBy, if_neg hk]
      rw [List.pairwise_cons]
      refine ⟨?_, List.pairwise_cons.mpr ⟨h1, h2⟩⟩
      intro z hz
      rcases List.mem_cons.mp hz with hz1 | hz2
      · rw [hz1]
        exact hstop y x (by simpa using hk)
      · exact htrans x y z (hstop y x (by simpa using hk)) (h1 z hz2)

theorem pairwise_stableSortBy {α : Type} (R : α → α → Prop) (keep : α → α → Bool)
    (hkeep : ∀ a b, keep a b = true → R a b)
    (hstop : ∀ a b, keep a b = false → R b a)
    (htrans : ∀ a b c, R a b → R b c → R a c)
    (l : List α) : List.Pairwise R (stableSortBy keep l) := by
  induction l with
  | nil => simp [stableSortBy]
  | cons x xs ih =>
    exact pairwise_stableInsertBy R keep hkeep hstop htrans x _ ih

theorem pairwise_sortOnAsc {α β : Type} [LinearOrder β] (key : α → β) (l : List α) :
    List.Pairwise (fun a b => key a ≤ key b) (sortOnAsc key l) := by
  refine pairwise_stableSortBy _ _ ?_ ?_ ?_ l
  · intro a b h
    exact le_of_lt (of_decide_eq_true h)
  · intro a b h
    exact le_of_not_lt (of_decide_eq_false h)
  · intro a b c h1 h2
    exact le_trans h1 h2

theorem pairwise_sortOnDesc {α β : Type} [LinearOrder β] (key : α → β) (l : List α) :
    List.Pairwise (fun a b => key b ≤ key a) (sortOnDesc key l) := by
  refine pairwise_stableSortBy _ _ ?_ ?_ ?_ l
  · intro a b h
    exact le_of_lt (of_decide_eq_true h)
  · intro a b h
    exact le_of_not_lt (of_decide_eq_false h)
  · intro a b c h1 h2
    exact le_trans h2 h1

theorem filter_stableInsertBy_pos {α : Type} (p : α → Bool) (keep : α → α → Bool)
    (x : α) (l : List α) (hx : p x = true)
    (h : ∀ y, keep y x = true → p y = false) :
    (stableInsertBy keep x l).filter p = x :: l.filter p := by
  induction l with
  | nil => simp [stableInsertBy, hx]
  | cons y ys ih =>
    by_cases hk : keep y x
    · simp only [stableInsertBy, if_pos hk]
      rw [List.filter_cons, List.filter_cons]
      rw [h y hk]
      simpa using ih
    · simp only [stableInsertBy, if_neg hk]
      rw [List.filter_cons]
      rw [hx]
      simp

theorem filter_stableInsertBy_neg {α : Type} (p : α → Bool) (keep : α → α → Bool)
    (x : α) (l : List α) (hx : p x = false) :
    (stableInsertBy keep x l).filter p = l.filter p := by
  induction l with
  | nil => simp [stableInsertBy, hx]
  | cons y ys ih =>
    by_cases hk : keep y x
    · simp only [stableInsertBy, if_pos hk]
      rw [List.filter_cons, List.filter_cons, ih]
    · simp only [stableInsertBy, if_neg hk]
      rw [List.filter_cons, List.filter_cons]
      rw [hx]
      simp

/-- Stability of the descending sort: the elements whose key equals any
fixed value `k` appear in the sorted list exactly in their original
(discovery) order. -/
theorem stable_sortOnDesc {α β : Type} [LinearOrder β] (key : α → β) (l : List α) (k : β) :
    (sortOnDesc key l).filter (fun a => decide (key a = k))
      = l.filter (fun a => decide (key a = k)) := by
  induction l with
  | nil => rfl
  | cons x xs ih =>
    show (stableInsertBy _ x (stableSortBy _ xs)).filter _ = _
    by_cases hx : key x = k
    · rw [filter_stableInsertBy_pos _ _ _ _ (by simpa using hx)]
      · rw [show List.filter (fun a => decide (key a = k)) (x :: xs)
              = x :: List.filter (fun a => decide (key a = k)) xs by simp [hx]]
        rw [← ih]
        rfl
      · intro y hy
        have hlt : key x < key y := of_decide_eq_true hy
        have : key y ≠ k := by
          rw [← hx]
          exact ne_of_gt hlt
        simpa using this
    · rw [filter_stableInsertBy_neg _ _ _ _ (by simpa using hx)]
      rw [show List.filter (fun a => decide (key a = k)) (x :: xs)
            = List.filter (fun a => decide (key a = k)) xs by simp [hx]]
      rw [← ih]
      rfl

/-! ### Pool invariant

Because the queue is popped only from the head and nothing is enqueued
after seeding, every reachable pool state is determined by the number `k`
of pops performed so far: the queue is the `k`-th suffix of the seed, the
completed queue holds the clip names of the first `min k M` items in
order, the failed queue holds the failing ones among them, and `k - min k M`
workers have popped their marker and stopped. -/
theorem count_false_of_all_false : ∀ {l : List Bool}, (∀ w ∈ l, w = false) →
    l.count false = l.length := by
  intro l
  induction l with
  | nil => intro h; rfl
  | cons b bs ih =>
    intro h
    have hb : b = false := h b (List.mem_cons_self b bs)
    have hbs : ∀ w ∈ bs, w = false := fun w hw => h w (List.mem_cons_of_mem b hw)
    subst hb
    simp [List.count_cons, ih hbs]

theorem count_false_set : ∀ {l : List Bool} {i : Nat}, l.getD i false = true →
    (l.set i false).count false = l.count false + 1 := by
  intro l
  induction l with
  | nil => intro i h; simp at h
  | cons b bs ih =>
    intro i h
    cases i with
    | zero =>
      rw [List.getD_cons_zero] at h
      subst h
      simp [List.count_cons]
    | succ j =>
      rw [List.getD_cons_succ] at h
      have hih := ih h
      cases b <;> simp [List.count_cons, hih]

theorem count_false_lt_length : ∀ {l : List Bool} {i : Nat}, l.getD i false = true →
    l.count false < l.length := by
  intro l
  induction l with
  | nil => intro i h; simp at h
  | cons b bs ih =>
    intro i h
    cases i with
    | zero =>
      rw [List.getD_cons_zero] at h
      subst h
      have hle := List.count_le_length false bs
      simp [List.count_cons]
      omega
    | succ j =>
      rw [List.getD_cons_succ] at h
      have hih := ih h
      cases b <;> simp [List.count_cons] <;> omega

theorem seedQueue_length (items : List WorkItem) (n : Nat) :
    (seedQueue items n).length = items.length + n := by
  simp [seedQueue]

theorem seedQueue_drop_lt : ∀ (items : List WorkItem) (n k : Nat) (h : k < items.length),
    (seedQueue items n).drop k
      = some (items.get ⟨k, h⟩) :: (seedQueue items n).drop (k + 1) := by
  intro items n
  induction items with
  | nil => intro k h; simp at h
  | cons a as ih =>
    intro k h
    cases k with
    | zero => simp [seedQueue]
    | succ j =>
      have hj : j < as.length := by simpa using h
      have hih := ih j hj
      simp only [seedQueue] at hih ⊢
      simpa using hih

theorem seedQueue_drop_marker {items : List WorkItem} {n k : Nat}
    (hge : items.length ≤ k) (hlt : k < items.length + n) :
    (seedQueue items n).drop k = none :: (seedQueue items n).drop (k + 1) := by
  have hrep : ∀ m, items.length ≤ m →
      (seedQueue items n).drop m = List.replicate (items.length + n - m) (none : Option WorkItem) := by
    intro m hm
    rw [seedQueue, List.drop_append_eq_append_drop]
    rw [List.drop_eq_nil_of_le (by simpa using hm)]
    rw [List.drop_replicate]
    simp only [List.nil_append, List.length_map]
    congr 1
    omega
  rw [hrep k hge, hrep (k + 1) (by omega)]
  have hsucc : items.length + n - k = (items.length + n - (k + 1)) + 1 := by omega
  rw [hsucc, List.replicate_succ]

theorem seedQueue_drop_end {items : List WorkItem} {n k : Nat}
    (hge : items.length + n ≤ k) : (seedQueue items n).drop k = [] := by
  apply List.drop_eq_nil_of_le
  rw [seedQueue_length]
  omega

theorem take_succ_of_lt {α : Type} {l : List α} {k : Nat} (h : k < l.length) :
    l.take (k + 1) = l.take k ++ [l.get ⟨k, h⟩] := by
  rw [List.take_succ, List.getElem?_eq_getElem h]
  simp

theorem count_false_replicate_true (n : Nat) : (List.replicate n true).count false = 0 := by
  induction n with
  | zero => rfl
  | succ m ih => simp [List.replicate_succ, List.count_cons, ih]

theorem poolInv_init (system : String → Int) (items : List WorkItem) (n : Nat) :
    PoolInv system items n (initPool items n) := by
  refine ⟨0, by omega, rfl, rfl, rfl, by simp [initPool], ?_⟩
  simp [initPool, count_false_replicate_true]

theorem poolStep_inv {system : String → Int} {items : List WorkItem} {n : Nat}
    {st : PoolState} (h : PoolInv system items n st) (i : Nat) :
    PoolInv system items n (poolStep system st i) := by
  obtain ⟨q, comp, fl, ws⟩ := st
  obtain ⟨k, hk, hq, hc, hf, hwl, hcnt⟩ := h
  simp only at hq hc hf hwl hcnt
  subst hq hc hf
  cases hrun : ws.getD i false with
  | false =>
    simp only [poolStep, hrun, Bool.false_eq_true, if_false]
    exact ⟨k, hk, rfl, rfl, rfl, hwl, hcnt⟩
  | true =>
    rcases Nat.lt_or_ge k items.length with hlt | hge
    · rw [seedQueue_drop_lt items n k hlt]
      simp only [poolStep, hrun, if_true]
      refine ⟨k + 1, by omega, rfl, ?_, ?_, hwl, ?_⟩
      · rw [take_succ_of_lt hlt, List.map_append]
        rfl
      · rw [take_succ_of_lt hlt, List.filter_append]
        by_cases hres : system (items.get ⟨k, hlt⟩).2 ≠ 0
        · rw [if_pos hres]
          simp only [List.get_eq_getElem] at hres
          simp [List.filter_cons, hres]
        · rw [if_neg hres]
          simp only [List.get_eq_getElem] at hres
          simp [List.filter_cons, not_not.mp hres]
      · simp only at hcnt ⊢
        omega
    · rcases Nat.lt_or_ge k (items.length + n) with hlt2 | hge2
      · rw [seedQueue_drop_marker hge hlt2]
        simp only [poolStep, hrun, if_true]
        refine ⟨k + 1, by omega, rfl, ?_, ?_, by simpa using hwl, ?_⟩
        · rw [List.take_of_length_le (by omega), List.take_of_length_le (by omega)]
        · rw [List.take_of_length_le (by omega), List.take_of_length_le (by omega)]
        · simp only
          rw [count_false_set hrun]
          omega
      · rw [seedQueue_drop_end hge2]
        simp only [poolStep, hrun, if_true]
        exact ⟨k, hk, by rw [seedQueue_drop_end hge2], rfl, rfl, hwl, hcnt⟩

theorem runPool_inv {system : String → Int} {items : List WorkItem} {n : Nat}
    (sched : List Nat) :
    ∀ {st : PoolState}, PoolInv system items n st →
      PoolInv system items n (runPool system st sched) := by
  induction sched with
  | nil => intro st h; exact h
  | cons i s ih =>
    intro st h
    exact ih (poolStep_inv h i)

/-- After any schedule under which every worker has terminated (which is
exactly what the join loop of `do_regression_tests` waits for), the
channels hold their final, schedule-independent contents: one completed
entry per item in queue order, one failure record per item whose command
exited non-zero, and an exhausted queue. -/
theorem pool_drained {system : String → Int} {items : List WorkItem} {n : Nat}
    {sched : List Nat} (hn : 1 ≤ n)
    (hdone : allDone (runPool system (initPool items n) sched)) :
    (runPool system (initPool items n) sched).completed_queue = items.map Prod.fst
    ∧ (runPool system (initPool items n) sched).failed_queue
        = items.filter (fun it => decide (system it.2 ≠ 0))
    ∧ (runPool system (initPool items n) sched).cmd_queue = [] := by
  obtain ⟨k, hk, hq, hc, hf, hwl, hcnt⟩ := runPool_inv sched (poolInv_init system items n)
  have hcount : (runPool system (initPool items n) sched).workers.count false
      = (runPool system (initPool items n) sched).workers.length :=
    count_false_of_all_false hdone
  have hkval : k = items.length + n := by
    rw [hcount, hwl] at hcnt
    omega
  subst hkval
  refine ⟨?_, ?_, ?_⟩
  · rw [hc, List.take_of_length_le (by omega)]
  · rw [hf, List.take_of_length_le (by omega)]
  · rw [hq, seedQueue_drop_end (by omega)]

theorem configEvents_cons (n : Nat) (c : String × String) (l : List (String × String)) :
    configEvents n (c :: l) = Ev.spawned n :: Ev.elapsed c.1 :: configEvents n l := by
  simp [configEvents]

theorem headD_eq_getD_zero {α : Type} (l : List α) (d : α) : l.headD d = l.getD 0 d := by
  cases l <;> rfl

theorem tail_getD {α : Type} (l : List α) (j : Nat) (d : α) :
    l.tail.getD j d = l.getD (j + 1) d := by
  cases l with
  | nil => rfl
  | cons a as => rw [List.tail_cons, List.getD_cons_succ]

/-- Full characterization of the configuration loop when every attempted
pool drains: the attempted configurations are the failure-free prefix plus
the first failing configuration (if any); each attempted configuration
spawns workers and prints its elapsed line; the process exits with status 1
iff some configuration fails, immediately after that configuration's
elapsed line, and no later configuration is attempted. -/
theorem configsLoop_spec (system : String → Int) (isWin : Bool) (exe : String)
    (clips : List (String × Nat)) (num_threads : Nat) (hn : 1 ≤ num_threads)
    (hclips : clips ≠ []) :
    ∀ (configs : List (String × String)) (scheds : List (List Nat)),
      (∀ j, j < configs.length →
        allDone (runPool system
          (initPool (mkWorkItems isWin exe (configs.getD j ("", "")).1 clips) num_threads)
          (scheds.getD j []))) →
      (configsLoop system isWin exe clips num_threads configs scheds).events
          = configEvents num_threads
              (configs.takeWhile (fun c => !configFails system isWin exe clips c.1)
                ++ (configs.drop (configs.takeWhile
                      (fun c => !configFails system isWin exe clips c.1)).length).take 1)
      ∧ (configsLoop system isWin exe clips num_threads configs scheds).halt
          = (if (configs.takeWhile (fun c => !configFails system isWin exe clips c.1)).length
                < configs.length
             then some (Halt.exit 1) else none) := by
  intro configs
  induction configs with
  | nil =>
    intro scheds _
    simp [configsLoop, configEvents]
  | cons c rest ih =>
    intro scheds hdrain
    have hlen : clips.length ≠ 0 := by
      have := List.length_pos.mpr hclips
      omega
    have hpp : print_progress 0 clips.length
        = Except.ok (100 * ((0 : ℚ) / (clips.length : ℚ))) := by
      simp [print_progress, hlen]
    have hd0 : allDone (runPool system
        (initPool (mkWorkItems isWin exe c.1 clips) num_threads) (scheds.headD [])) := by
      rw [headD_eq_getD_zero]
      have := hdrain 0 (by simp)
      rwa [List.getD_cons_zero] at this
    obtain ⟨hcomp, hfailq, hqe⟩ := pool_drained hn hd0
    have hrf : (!(runPool system
          (initPool (mkWorkItems isWin exe c.1 clips) num_threads)
          (scheds.headD [])).failed_queue.isEmpty)
        = configFails system isWin exe clips c.1 := by
      rw [hfailq]
      rfl
    have hdrain2 : ∀ j, j < rest.length →
        allDone (runPool system
          (initPool (mkWorkItems isWin exe (rest.getD j ("", "")).1 clips) num_threads)
          (scheds.tail.getD j [])) := by
      intro j hj
      have := hdrain (j + 1) (by simpa using Nat.succ_lt_succ hj)
      rw [List.getD_cons_succ] at this
      rw [tail_getD]
      exact this
    obtain ⟨ihe, ihh⟩ := ih scheds.tail hdrain2
    cases hcf : configFails system isWin exe clips c.1 with
    | true =>
      constructor
      · show (configsLoop system isWin exe clips num_threads (c :: rest) scheds).events = _
        simp only [configsLoop, hpp]
        rw [hrf, hcf]
        simp only [if_true]
        simp [List.takeWhile_cons, hcf, configEvents]
      · show (configsLoop system isWin exe clips num_threads (c :: rest) scheds).halt = _
        simp only [configsLoop, hpp]
        rw [hrf, hcf]
        simp only [if_true]
        simp [List.takeWhile_cons, hcf]
    | false =>
      have hpred : (fun c => !configFails system isWin exe clips c.1) c = true := by
        simp [hcf]
      have htw : (c :: rest).takeWhile (fun c => !configFails system isWin exe clips c.1)
          = c :: rest.takeWhile (fun c => !configFails system isWin exe clips c.1) :=
        List.takeWhile_cons_of_pos hpred
      constructor
      · show (configsLoop system isWin exe clips num_threads (c :: rest) scheds).events = _
        simp only [configsLoop, hpp]
        rw [hrf, hcf]
        simp only [Bool.false_eq_true, if_false]
        rw [htw]
        simp only [List.length_cons, List.drop_succ_cons]
        rw [List.cons_append c, configEvents_cons, ← ihe]
        rfl
      · show (configsLoop system isWin exe clips num_threads (c :: rest) scheds).halt = _
        simp only [configsLoop, hpp]
        rw [hrf, hcf]
        simp only [Bool.false_eq_true, if_false]
        rw [htw]
        simp only [List.length_cons]
        rw [ihh]
        by_cases hplen :
            (rest.takeWhile (fun c => !configFails system isWin exe clips c.1)).length
              < rest.length
        · rw [if_pos hplen, if_pos (by omega)]
        · rw [if_neg hplen, if_neg (by omega)]

/-! ### Claim theorems -/
/-- C1: for every worker count N ≥ 1 and every enumerated clip list, under
any interleaving after which the pool has drained (all workers ended),
every work item was processed exactly once: the completed-count channel
holds exactly one entry per clip — M entries, no duplicates, no omissions —
for every exit-status oracle `system`; moreover a worker pushes the clip
identifier for every non-marker item it pops, whatever the command's exit
status. -/
theorem c1_every_item_once (system : String → Int) (isWin : Bool)
    (exe config_filename : String) (clips : List (String × Nat))
    (num_threads : Nat) (sched : List Nat) (hn : 1 ≤ num_threads)
    (hdone : allDone (runPool system
      (initPool (mkWorkItems isWin exe config_filename clips) num_threads) sched)) :
    (runPool system (initPool (mkWorkItems isWin exe config_filename clips) num_threads)
        sched).completed_queue = clips.map Prod.fst
    ∧ (runPool system (initPool (mkWorkItems isWin exe config_filename clips) num_threads)
        sched).completed_queue.length = clips.length
    ∧ ∀ (st : PoolState) (i : Nat) (item : WorkItem) (rest : List (Option WorkItem)),
        st.workers.getD i false = true → st.cmd_queue = some item :: rest →
        (poolStep system st i).completed_queue = st.completed_queue ++ [item.1] := by
  have h := pool_drained hn hdone
  have hmap : (mkWorkItems isWin exe config_filename clips).map Prod.fst
      = clips.map Prod.fst := by
    simp [mkWorkItems]
  refine ⟨h.1.trans hmap, ?_, ?_⟩
  · rw [h.1, hmap, List.length_map]
  · intro st i item rest hrun hq
    obtain ⟨q, comp, fl, ws⟩ := st
    simp only at hrun hq
    subst hq
    simp only [List.getD_eq_getElem?_getD] at hrun
    simp [poolStep, hrun]

theorem c1_witness :
    (1 ≤ 2)
    ∧ allDone (runPool (fun _ => (1 : Int))
        (initPool (mkWorkItems false "x" "cfg" [("a", 3), ("b", 2), ("c", 1)]) 2)
        [0, 0, 0, 0, 1])
    ∧ (runPool (fun _ => (1 : Int))
        (initPool (mkWorkItems false "x" "cfg" [("a", 3), ("b", 2), ("c", 1)]) 2)
        [0, 0, 0, 0, 1]).completed_queue = ["a", "b", "c"] := by
  have hdone : allDone (runPool (fun _ => (1 : Int))
      (initPool (mkWorkItems false "x" "cfg" [("a", 3), ("b", 2), ("c", 1)]) 2)
      [0, 0, 0, 0, 1]) := by decide
  refine ⟨by omega, hdone, ?_⟩
  exact (c1_every_item_once (fun _ => (1 : Int)) false "x" "cfg"
    [("a", 3), ("b", 2), ("c", 1)] 2 [0, 0, 0, 0, 1] (by omega) hdone).1.trans (by decide)

/-- C2: for every configuration sequence (each pool draining under its
schedule), the run attempts exactly the failure-free prefix plus the first
failing configuration: each attempted configuration spawns workers and
prints its elapsed-time line, and the process halts with `sys.exit(1)` iff
some configuration produced a failure record, right after that
configuration's elapsed-time line — later configurations are never
attempted; with no failure the run proceeds through every configuration. -/
theorem c2_early_abort (system : String → Int) (isWin : Bool) (exe : String)
    (clips : List (String × Nat)) (num_threads : Nat) (hn : 1 ≤ num_threads)
    (hclips : clips ≠ []) (configs : List (String × String)) (scheds : List (List Nat))
    (hdrain : ∀ j, j < configs.length →
      allDone (runPool system
        (initPool (mkWorkItems isWin exe (configs.getD j ("", "")).1 clips) num_threads)
        (scheds.getD j []))) :
    (configsLoop system isWin exe clips num_threads configs scheds).events
        = configEvents num_threads
            (configs.takeWhile (fun c => !configFails system isWin exe clips c.1)
              ++ (configs.drop (configs.takeWhile
                    (fun c => !configFails system isWin exe clips c.1)).length).take 1)
    ∧ (configsLoop system isWin exe clips num_threads configs scheds).halt
        = (if (configs.takeWhile (fun c => !configFails system isWin exe clips c.1)).length
              < configs.length
           then some (Halt.exit 1) else none) :=
  configsLoop_spec system isWin exe clips num_threads hn hclips configs scheds hdrain

theorem c2_witness :
    (∀ j, j < configsDemo.length →
      allDone (runPool sysDemo
        (initPool (mkWorkItems false "v" (configsDemo.getD j ("", "")).1 [("cl", 5)]) 1)
        (([[0, 0], [0, 0], [0, 0]] : List (List Nat)).getD j [])))
    ∧ (configsLoop sysDemo false "v" [("cl", 5)] 1 configsDemo
        [[0, 0], [0, 0], [0, 0]]).events = [Ev.spawned 1, Ev.elapsed "cfg1"]
    ∧ (configsLoop sysDemo false "v" [("cl", 5)] 1 configsDemo
        [[0, 0], [0, 0], [0, 0]]).halt = some (Halt.exit 1) := by
  have hdrain : ∀ j, j < configsDemo.length →
      allDone (runPool sysDemo
        (initPool (mkWorkItems false "v" (configsDemo.getD j ("", "")).1 [("cl", 5)]) 1)
        (([[0, 0], [0, 0], [0, 0]] : List (List Nat)).getD j [])) := by decide
  have h := c2_early_abort sysDemo false "v" [("cl", 5)] 1 (by omega) (by decide)
    configsDemo [[0, 0], [0, 0], [0, 0]] hdrain
  exact ⟨hdrain, h.1.trans (by decide), h.2.trans (by decide)⟩

/-- The cold-cache/effects summary of regression-corpus preparation:
extraction happens exactly when the archive exists and the corpus directory
does not, and a manifest write implies a cold cache. -/
theorem prepare_reg_effects (fs : FileSys) (test_data_dir : String) :
    (do_prepare_regression_test_data fs test_data_dir).extracted
        = (fs.test_zip && !fs.test_dir)
    ∧ ((do_prepare_regression_test_data fs test_data_dir).manifest ≠ none →
        fs.test_zip = true ∧ fs.test_dir = false) := by
  unfold do_prepare_regression_test_data
  dsimp only
  cases hz : fs.test_zip <;> cases hd : fs.test_dir <;>
    simp only [Bool.not_true, Bool.not_false] <;> split_ifs <;> simp_all

/-- C3: corpus preparation is idempotent — when the corpus directory
already exists on entry no extraction is performed and no manifest is
written, and conversely extraction or a manifest write can only happen on a
cold cache. -/
theorem c3_idempotent (fs : FileSys) (test_data_dir : String) :
    (fs.test_dir = true →
      (do_prepare_regression_test_data fs test_data_dir).extracted = false
      ∧ (do_prepare_regression_test_data fs test_data_dir).manifest = none)
    ∧ ((do_prepare_regression_test_data fs test_data_dir).extracted = true
        ∨ (do_prepare_regression_test_data fs test_data_dir).manifest ≠ none →
      fs.test_dir = false) := by
  have h := prepare_reg_effects fs test_data_dir
  constructor
  · intro hdir
    constructor
    · rw [h.1, hdir]
      simp
    · by_contra hm
      exact absurd hdir (by simp [(h.2 hm).2])
  · intro hor
    rcases hor with he | hm
    · rw [h.1] at he
      cases hd : fs.test_dir
      · rfl
      · rw [hd] at he
        simp at he
    · exact (h.2 hm).2

theorem c3_witness :
    fsWarmDemo.test_dir = true
    ∧ (do_prepare_regression_test_data fsWarmDemo "td").extracted = false
    ∧ (do_prepare_regression_test_data fsWarmDemo "td").manifest = none := by
  have h := (c3_idempotent fsWarmDemo "td").1 rfl
  exact ⟨rfl, h.1, h.2⟩

/-- C4: after an enumeration that finds zero clip files or zero
configuration files, preparation calls `sys.exit(1)`, and the whole process
stops there — in particular the regression runner, and with it any worker
thread, is never reached.  Both preparation variants behave this way. -/
theorem c4_fatal_empty (fs : FileSys) (test_data_dir : String) :
    (fs.test_zip = true →
      (regression_clips_of fs = [] ∨ test_configs_of fs = []) →
      (do_prepare_regression_test_data fs test_data_dir).value
          = Except.error (Halt.exit 1)
      ∧ ∀ (isWin compressor_exists : Bool) (exe : String) (system : String → Int)
          (args : Args) (scheds : List (List Nat)),
          mainRun fs test_data_dir isWin compressor_exists exe system args scheds
            = ([Ev.prepReg], Halt.exit 1))
    ∧ (fs.decomp_zip = true →
      (decomp_clips_of fs = [] ∨ decomp_configs_of fs = []) →
      (do_prepare_decompression_test_data fs test_data_dir).value
          = Except.error (Halt.exit 1)
      ∧ ∀ (v : Option String),
          (do_prepare_regression_test_data fs test_data_dir).value = Except.ok v →
          ∀ (isWin compressor_exists : Bool) (exe : String) (system : String → Int)
            (args : Args) (scheds : List (List Nat)),
            mainRun fs test_data_dir isWin compressor_exists exe system args scheds
              = ([Ev.prepReg, Ev.prepDecomp], Halt.exit 1)) := by
  constructor
  · intro hz hempty
    have hval : (do_prepare_regression_test_data fs test_data_dir).value
        = Except.error (Halt.exit 1) := by
      unfold do_prepare_regression_test_data
      rw [hz]
      rcases hempty with he | he
      · simp [he]
      · rw [he]
        split_ifs <;> simp_all
    refine ⟨hval, ?_⟩
    intro isWin ce exe system args scheds
    simp [mainRun, hval]
  · intro hz hempty
    have hval : (do_prepare_decompression_test_data fs test_data_dir).value
        = Except.error (Halt.exit 1) := by
      unfold do_prepare_decompression_test_data
      rw [hz]
      rcases hempty with he | he
      · simp [he]
      · rw [he]
        split_ifs <;> simp_all
    refine ⟨hval, ?_⟩
    intro v hok isWin ce exe system args scheds
    simp [mainRun, hok, hval]

theorem c4_witness :
    fsEmptyCorpus.test_zip = true
    ∧ regression_clips_of fsEmptyCorpus = []
    ∧ (do_prepare_regression_test_data fsEmptyCorpus "td").value
        = Except.error (Halt.exit 1)
    ∧ mainRun fsEmptyCorpus "td" false true "x" (fun _ => 0) ⟨4, true, none⟩ []
        = ([Ev.prepReg], Halt.exit 1) := by
  have h := (c4_fatal_empty fsEmptyCorpus "td").1 rfl (Or.inl rfl)
  exact ⟨rfl, rfl, h.1, h.2 false true "x" (fun _ => 0) ⟨4, true, none⟩ []⟩

/-- C5: when the archive file is absent, preparation returns the absent
indicator (Python's `None`) instead of exiting, performs no extraction and
writes no manifest, and the main flow proceeds to the rest of the run
(the decompression-preparation stage is reached). -/
theorem c5_missing_archive_soft (fs : FileSys) (test_data_dir : String)
    (h : fs.test_zip = false) :
    (do_prepare_regression_test_data fs test_data_dir).value = Except.ok none
    ∧ (do_prepare_regression_test_data fs test_data_dir).extracted = false
    ∧ (do_prepare_regression_test_data fs test_data_dir).manifest = none
    ∧ ∀ (isWin compressor_exists : Bool) (exe : String) (system : String → Int)
        (args : Args) (scheds : List (List Nat)),
        Ev.prepDecomp
          ∈ (mainRun fs test_data_dir isWin compressor_exists exe system args scheds).1 := by
  have hres : do_prepare_regression_test_data fs test_data_dir
      = ⟨false, none, Except.ok none⟩ := by
    unfold do_prepare_regression_test_data
    rw [h]
    rfl
  refine ⟨by rw [hres], by rw [hres], by rw [hres], ?_⟩
  intro isWin ce exe system args scheds
  cases hd : (do_prepare_decompression_test_data fs test_data_dir).value with
  | error hh => simp [mainRun, hres, hd]
  | ok v =>
    simp only [mainRun, hres, hd]
    split_ifs <;> simp

theorem c5_witness :
    fsAbsentArchive.test_zip = false
    ∧ (do_prepare_regression_test_data fsAbsentArchive "td").value = Except.ok none
    ∧ Ev.prepDecomp ∈ (mainRun fsAbsentArchive "td" false true "x" (fun _ => 0)
        ⟨4, false, none⟩ []).1 := by
  have h := c5_missing_archive_soft fsAbsentArchive "td" rfl
  exact ⟨rfl, h.1, h.2.2.2 false true "x" (fun _ => 0) ⟨4, false, none⟩ []⟩

/-- C6: enumeration order is deterministic — the configuration sort is
ascending by filename (code-point order), the clip sort is descending by
byte size, both are permutations of the discovered lists, ties in the clip
sort preserve discovery order, and the spec examples hold: sizes
[10, 50, 20] dispatch as [50, 20, 10] and names ["b.config", "a.config"]
sort as ["a.config", "b.config"]. -/
theorem c6_deterministic_order :
    (∀ l : List (String × String),
      List.Pairwise (fun a b => codePoints a.2 ≤ codePoints b.2)
        (sortOnAsc (fun c => codePoints c.2) l))
    ∧ (∀ l : List (String × Nat),
      List.Pairwise (fun a b => b.2 ≤ a.2) (sortOnDesc Prod.snd l))
    ∧ (∀ l : List (String × String), List.Perm (sortOnAsc (fun c => codePoints c.2) l) l)
    ∧ (∀ l : List (String × Nat), List.Perm (sortOnDesc Prod.snd l) l)
    ∧ (∀ (l : List (String × Nat)) (k : Nat),
      (sortOnDesc Prod.snd l).filter (fun a => decide (a.2 = k))
        = l.filter (fun a => decide (a.2 = k)))
    ∧ sortOnDesc Prod.snd [("c1", 10), ("c2", 50), ("c3", 20)]
        = [("c2", 50), ("c3", 20), ("c1", 10)]
    ∧ sortOnAsc (fun c => codePoints c.2) [("p1", "b.config"), ("p2", "a.config")]
        = [("p2", "a.config"), ("p1", "b.config")] := by
  refine ⟨fun l => pairwise_sortOnAsc _ l, fun l => pairwise_sortOnDesc _ l,
    fun l => perm_stableSortBy _ l, fun l => perm_stableSortBy _ l,
    fun l k => stable_sortOnDesc Prod.snd l k, by decide, by decide⟩

/-- C7: the queue for one configuration is seeded with exactly M + N
entries — one per enumerated clip, in enumerated order, followed by exactly
N termination markers — and any worker that pops a marker ends its loop,
touching neither channel. -/
theorem c7_queue_shape (isWin : Bool) (exe config_filename : String)
    (clips : List (String × Nat)) (num_threads : Nat) :
    (seedQueue (mkWorkItems isWin exe config_filename clips) num_threads).length
        = clips.length + num_threads
    ∧ (seedQueue (mkWorkItems isWin exe config_filename clips) num_threads).take
        clips.length = (mkWorkItems isWin exe config_filename clips).map some
    ∧ (seedQueue (mkWorkItems isWin exe config_filename clips) num_threads).drop
        clips.length = List.replicate num_threads none
    ∧ (∀ (system : String → Int) (st : PoolState) (i : Nat)
          (rest : List (Option WorkItem)),
        st.workers.getD i false = true → st.cmd_queue = none :: rest →
        poolStep system st i
          = { st with cmd_queue := rest, workers := st.workers.set i false }) := by
  have hlen2 : clips.length
      = ((mkWorkItems isWin exe config_filename clips).map some).length := by
    simp [mkWorkItems]
  refine ⟨?_, ?_, ?_, ?_⟩
  · rw [seedQueue_length]
    simp [mkWorkItems]
  · simp only [seedQueue]
    rw [hlen2]
    exact List.take_left _ _
  · simp only [seedQueue]
    rw [hlen2]
    exact List.drop_left _ _
  · intro system st i rest hrun hq
    obtain ⟨q, comp, fl, ws⟩ := st
    simp only at hrun hq
    subst hq
    simp only [List.getD_eq_getElem?_getD] at hrun
    simp [poolStep, hrun]

theorem c7_witness :
    (seedQueue (mkWorkItems false "x" "cfg" [("a", 3), ("b", 2)]) 2).length = 2 + 2
    ∧ poolStep (fun _ => (0 : Int)) ⟨[none], [], [], [true]⟩ 0
        = ⟨[], [], [], [false]⟩ := by
  have h := c7_queue_shape false "x" "cfg" [("a", 3), ("b", 2)] 2
  refine ⟨h.1, ?_⟩
  have h2 := h.2.2.2 (fun _ => (0 : Int)) ⟨[none], [], [], [true]⟩ 0 [] (by decide) rfl
  exact h2.trans (by decide)

theorem prepare_reg_cold_manifest (fs : FileSys) (test_data_dir : String)
    (hz : fs.test_zip = true) (hd : fs.test_dir = false)
    (hc : regression_clips_of fs ≠ []) (hcfg : test_configs_of fs ≠ []) :
    (do_prepare_regression_test_data fs test_data_dir).manifest
      = some (manifestLines (sortOnAsc (fun f => codePoints f.name) (test_configs_of fs))
          (sortOnDesc (fun f => f.size) (regression_clips_of fs))) := by
  have h1 : ¬ (regression_clips_of fs).length = 0 := by
    simpa [List.length_eq_zero] using hc
  have h2 : ¬ (test_configs_of fs).length = 0 := by
    simpa [List.length_eq_zero] using hcfg
  unfold do_prepare_regression_test_data
  rw [hz, hd]
  simp [h1, h2]

theorem prepare_decomp_cold_manifest (fs : FileSys) (test_data_dir : String)
    (hz : fs.decomp_zip = true) (hd : fs.decomp_dir = false)
    (hc : decomp_clips_of fs ≠ []) (hcfg : decomp_configs_of fs ≠ []) :
    (do_prepare_decompression_test_data fs test_data_dir).manifest
      = some (manifestLines (decomp_configs_of fs) (decomp_clips_of fs)) := by
  have h1 : ¬ (decomp_clips_of fs).length = 0 := by
    simpa [List.length_eq_zero] using hc
  have h2 : ¬ (decomp_configs_of fs).length = 0 := by
    simpa [List.length_eq_zero] using hcfg
  unfold do_prepare_decompression_test_data
  rw [hz, hd]
  simp [h1, h2]

/-- C8 counterexample: on a cold-cache extraction of the decompression-only
corpus the written manifest lists the clips in discovery order — the code
never sorts them — so a corpus whose clips are discovered in ascending size
order yields a manifest that is not in descending byte-size order, refuting
the claim for the secondary corpus. -/
theorem c8_counterexample :
    (do_prepare_decompression_test_data fsDecompDemo "td").manifest
        = some (manifestLines (decomp_configs_of fsDecompDemo) (decomp_clips_of fsDecompDemo))
    ∧ (do_prepare_decompression_test_data fsDecompDemo "td").manifest
        ≠ some (manifestLines (decomp_configs_of fsDecompDemo)
            (sortOnDesc (fun f => f.size) (decomp_clips_of fsDecompDemo))) := by
  constructor <;> decide

/-- C8 (amended): on a cold-cache extraction of the primary regression
corpus the manifest holds the configurations sorted ascending by filename
and the clips sorted descending by byte size (as relative paths); on a
cold-cache extraction of the decompression-only corpus the manifest holds
the single-name-filtered configurations and the clips in discovery order,
unsorted. -/
theorem c8_amended_manifest_order (fs : FileSys) (test_data_dir : String)
    (hz : fs.test_zip = true) (hd : fs.test_dir = false)
    (hc : regression_clips_of fs ≠ []) (hcfg : test_configs_of fs ≠ []) :
    (do_prepare_regression_test_data fs test_data_dir).manifest
        = some (manifestLines (sortOnAsc (fun f => codePoints f.name) (test_configs_of fs))
            (sortOnDesc (fun f => f.size) (regression_clips_of fs)))
    ∧ List.Pairwise (fun a b => codePoints a.name ≤ codePoints b.name)
        (sortOnAsc (fun f => codePoints f.name) (test_configs_of fs))
    ∧ List.Pairwise (fun a b => b.size ≤ a.size)
        (sortOnDesc (fun f => f.size) (regression_clips_of fs))
    ∧ (fs.decomp_zip = true → fs.decomp_dir = false → decomp_clips_of fs ≠ [] →
        decomp_configs_of fs ≠ [] →
        (do_prepare_decompression_test_data fs test_data_dir).manifest
          = some (manifestLines (decomp_configs_of fs) (decomp_clips_of fs))) := by
  refine ⟨prepare_reg_cold_manifest fs test_data_dir hz hd hc hcfg,
    pairwise_sortOnAsc _ _, pairwise_sortOnDesc _ _, ?_⟩
  intro hz2 hd2 hc2 hcfg2
  exact prepare_decomp_cold_manifest fs test_data_dir hz2 hd2 hc2 hcfg2

theorem c8_witness :
    fsRegDemo.test_zip = true
    ∧ regression_clips_of fsRegDemo ≠ []
    ∧ test_configs_of fsRegDemo ≠ []
    ∧ (do_prepare_regression_test_data fsRegDemo "td").manifest
        = some (manifestLines
            (sortOnAsc (fun f => codePoints f.name) (test_configs_of fsRegDemo))
            (sortOnDesc (fun f => f.size) (regression_clips_of fsRegDemo)))
    ∧ (do_prepare_decompression_test_data fsRegDemo "td").manifest
        = some (manifestLines (decomp_configs_of fsRegDemo) (decomp_clips_of fsRegDemo)) := by
  have h := c8_amended_manifest_order fsRegDemo "td" rfl rfl (by decide) (by decide)
  exact ⟨rfl, by decide, by decide, h.1, h.2.2.2 rfl rfl (by decide) (by decide)⟩

/-- C9 counterexample: the constructed command is not literally the claimed
template `<validator> -acl=<clip path> -test -config=<config path>` — the
code wraps both substituted paths in double quotes. -/
theorem c9_counterexample :
    makeCmd false "v" "c" "g" ≠ "v -acl=c -test -config=g"
    ∧ makeCmd false "v" "c" "g" = "v -acl=\"c\" -test -config=\"g\"" := by
  constructor <;> decide

/-- C9 (amended): the constructed command is exactly the validator path,
clip path and configuration path substituted into the fixed template
`<validator> -acl="<clip path>" -test -config="<config path>"` (the paths
wrapped in double quotes); on Windows every `/` of the command string is
then replaced by `\`; and the only outcome a worker inspects is the
command's exit status — it records a failure iff the status is non-zero and
pushes the completion signal either way. -/
theorem c9_amended_command (exe clip config : String) :
    makeCmd false exe clip config
        = exe ++ " -acl=\"" ++ clip ++ "\" -test -config=\"" ++ config ++ "\""
    ∧ makeCmd true exe clip config
        = replaceSlashes (exe ++ " -acl=\"" ++ clip ++ "\" -test -config=\"" ++ config ++ "\"")
    ∧ ∀ (system : String → Int) (st : PoolState) (i : Nat) (item : WorkItem)
        (rest : List (Option WorkItem)),
        st.workers.getD i false = true → st.cmd_queue = some item :: rest →
        ((poolStep system st i).failed_queue
            = (if system item.2 ≠ 0 then st.failed_queue ++ [item] else st.failed_queue))
        ∧ (poolStep system st i).completed_queue = st.completed_queue ++ [item.1] := by
  refine ⟨rfl, rfl, ?_⟩
  intro system st i item rest hrun hq
  obtain ⟨q, comp, fl, ws⟩ := st
  simp only at hrun hq
  subst hq
  simp only [List.getD_eq_getElem?_getD] at hrun
  constructor <;> simp [poolStep, hrun]

theorem c9_witness :
    makeCmd false "v" "c" "g" = "v -acl=\"c\" -test -config=\"g\""
    ∧ (poolStep (fun _ => (1 : Int)) ⟨[some ("c", "cmd")], [], [], [true]⟩ 0).failed_queue
        = [("c", "cmd")]
    ∧ (poolStep (fun _ => (1 : Int)) ⟨[some ("c", "cmd")], [], [], [true]⟩ 0).completed_queue
        = ["c"] := by
  have h := c9_amended_command "v" "c" "g"
  have h2 := h.2.2 (fun _ => (1 : Int)) ⟨[some ("c", "cmd")], [], [], [true]⟩ 0
    ("c", "cmd") [] (by decide) rfl
  exact ⟨h.1, h2.1.trans (by decide), h2.2.trans (by decide)⟩

/-- C10: the progress renderer divides by its `total` parameter with no
zero guard, so `total = 0` raises `ZeroDivisionError` for every iteration
value; this is reachable from the main flow: with the regression archive
absent, preparation returns the absent indicator, the main flow still
invokes the regression runner, which enumerates zero clips (with one
configuration present and the compressor executable in place), spawns its
workers and crashes on the first progress render. -/
theorem c10_progress_zero_division (iteration : Nat) :
    print_progress iteration 0 = Except.error Halt.zeroDivisionError
    ∧ (do_prepare_regression_test_data fsZeroDivDemo "td").value = Except.ok none
    ∧ mainRun fsZeroDivDemo "td" false true "exe" (fun _ => 0) ⟨4, true, none⟩ []
        = ([Ev.prepReg, Ev.prepDecomp, Ev.generate, Ev.spawned 4],
           Halt.zeroDivisionError) := by
  refine ⟨?_, by decide, by decide⟩
  simp [print_progress]

end Make
